import Mathlib

/-!
Shallow embedding of the `dccli` docker-compose wrapper (Go) and proofs
about its lifecycle orchestrator, retry policies and helpers.

Sources embedded: `compose.go` (Start / connect phase, updateContainers,
findKey, GetContainer, Cleanup, options), `utils.go` (combineErr,
InferDockerHost), and the retry-policy file (`connect`, SimpleRetryPolicy,
ExponentialBackoffRetryPolicy, getExponentialTime).

Conventions: Go strings are `List Char`; Go `error` values are
`Option (List Char)` (the message), with `none` = nil; Go `time.Duration`
is an integer (or rational, for the float computation in
`getExponentialTime`) number of nanoseconds; machine-word overflow is
irrelevant to every quantity here (attempt counters and durations stay far
below 2^63 in any execution the claims speak about), so `Int`/`Nat` model
Go `int`/`int64`.
-/

namespace Dccli

/-- Go strings, as lists of characters. -/
abbrev Str := List Char

/-- Errors: `none` is Go `nil`, `some msg` an error with message `msg`. -/
abbrev GoErr := Option Str

/-- Does `sub` occur at the very start of `s`?  (helper for `goContains`). -/
def leadMatch : Str → Str → Bool
  | [], _ => true
  | _ :: _, [] => false
  | a :: as, b :: bs => a == b && leadMatch as bs

/-- Go `strings.Contains(s, sub)`: `sub` occurs somewhere inside `s`. -/
def goContains : Str → Str → Bool
  | [], sub => leadMatch sub []
  | a :: t, sub => leadMatch sub (a :: t) || goContains t sub

theorem leadMatch_refl_append (e y : Str) : leadMatch e (e ++ y) = true := by
  induction e with
  | nil => rfl
  | cons a as ih => simp [leadMatch, ih]

theorem leadMatch_append_right (e s z : Str) (h : leadMatch e s = true) :
    leadMatch e (s ++ z) = true := by
  induction e generalizing s with
  | nil => rfl
  | cons a as ih =>
    cases s with
    | nil => simp [leadMatch] at h
    | cons b bs =>
      simp [leadMatch] at h ⊢
      exact ⟨h.1, ih bs h.2⟩

theorem goContains_nil_iff (sub : Str) : goContains [] sub = true ↔ sub = [] := by
  cases sub <;> simp [goContains, leadMatch]

theorem goContains_of_leadMatch (s sub : Str) (h : leadMatch sub s = true) :
    goContains s sub = true := by
  cases s with
  | nil =>
    cases sub with
    | nil => rfl
    | cons b bs => simp [leadMatch] at h
  | cons a t => simp [goContains, h]

theorem goContains_append_left (x s sub : Str) (h : goContains s sub = true) :
    goContains (x ++ s) sub = true := by
  induction x with
  | nil => simpa using h
  | cons a as ih => simp [goContains, ih]

theorem goContains_append_right (s z sub : Str) (h : goContains s sub = true) :
    goContains (s ++ z) sub = true := by
  induction s with
  | nil =>
    have hsub : sub = [] := (goContains_nil_iff sub).1 h
    subst hsub
    cases z with
    | nil => rfl
    | cons b bs => simp [goContains, leadMatch]
  | cons a t ih =>
    simp only [goContains, Bool.or_eq_true] at h
    rcases h with h | h
    · simp only [List.cons_append, goContains, Bool.or_eq_true]
      exact Or.inl (leadMatch_append_right _ _ _ h)
    · simp only [List.cons_append, goContains, Bool.or_eq_true]
      exact Or.inr (ih h)

theorem goContains_self (s : Str) : goContains s s = true := by
  cases s with
  | nil => rfl
  | cons a t =>
    apply goContains_of_leadMatch
    have := leadMatch_refl_append (a :: t) []
    simpa using this

theorem goContains_of_middle (x e y : Str) : goContains (x ++ e ++ y) e = true := by
  rw [List.append_assoc]
  apply goContains_append_left
  apply goContains_append_right
  exact goContains_self e

/-! ## `combineErr` (utils.go)

```go
func combineErr(errs ...error) error {
    root := ""
    for _, e := range errs {
        if e == nil { continue }
        if root != "" { root = fmt.Sprintf("%s: %s", root, e) } else { root = fmt.Sprintf("%s", e) }
    }
    if root == "" { return nil }
    return errors.New(root)
}
```
-/

/-- One iteration of the `combineErr` accumulation loop; `[':', ' ']` is
the separator inserted by `fmt.Sprintf("%s: %s", root, e)`. -/
def combineStep (root : Str) (e : GoErr) : Str :=
  match e with
  | none => root
  | some s => if root ≠ [] then root ++ [':', ' '] ++ s else s

/-- `combineErr` from utils.go: fold the errors, return `nil` iff the
accumulated message is empty. -/
def combineErr (errs : List GoErr) : GoErr :=
  if errs.foldl combineStep [] = [] then none else some (errs.foldl combineStep [])

theorem combineStep_contains (root : Str) (e : GoErr) (sub : Str)
    (h : goContains root sub = true) :
    goContains (combineStep root e) sub = true := by
  cases e with
  | none => simpa [combineStep] using h
  | some s =>
    by_cases hr : root = []
    · subst hr
      have hsub : sub = [] := (goContains_nil_iff sub).1 h
      subst hsub
      simp [combineStep]
      cases s with
      | nil => rfl
      | cons b bs => simp [goContains, leadMatch]
    · simp only [combineStep, ne_eq, hr, not_false_iff, if_pos]
      rw [List.append_assoc]
      exact goContains_append_right _ _ _ h

theorem foldl_combineStep_contains (errs : List GoErr) (root : Str) (sub : Str)
    (h : goContains root sub = true) :
    goContains (errs.foldl combineStep root) sub = true := by
  induction errs generalizing root with
  | nil => simpa using h
  | cons e rest ih => exact ih (combineStep root e) (combineStep_contains root e sub h)

theorem foldl_combineStep_mem (errs : List GoErr) (root : Str) (e : Str)
    (h : some e ∈ errs) :
    goContains (errs.foldl combineStep root) e = true := by
  induction errs generalizing root with
  | nil => simp at h
  | cons x rest ih =>
    rw [List.foldl_cons]
    rcases List.mem_cons.1 h with hx | hx
    · subst hx
      apply foldl_combineStep_contains
      by_cases hr : root = []
      · subst hr
        simpa [combineStep] using goContains_self e
      · simp only [combineStep, ne_eq, hr, not_false_iff, if_pos]
        exact goContains_append_left _ _ _ (goContains_self e)
    · exact ih _ hx

/-- Every error passed to `combineErr` has its text contained (as a
substring) in the combined message, whenever a combined error is returned. -/
theorem combineErr_contains (errs : List GoErr) (res e : Str)
    (hres : combineErr errs = some res) (he : some e ∈ errs) :
    goContains res e = true := by
  unfold combineErr at hres
  by_cases hroot : errs.foldl combineStep [] = []
  · rw [if_pos hroot] at hres
    cases hres
  · rw [if_neg hroot] at hres
    cases hres
    exact foldl_combineStep_mem errs [] e he

theorem combineStep_nonempty (root : Str) (e : GoErr)
    (h : root ≠ [] ∨ (∃ s, e = some s ∧ s ≠ [])) :
    combineStep root e ≠ [] := by
  cases e with
  | none =>
    rcases h with h | ⟨s, hs, _⟩
    · simpa [combineStep] using h
    · cases hs
  | some s =>
    by_cases hr : root = []
    · subst hr
      rcases h with h | ⟨s', hs', hne⟩
      · exact absurd rfl h
      · cases hs'
        simpa [combineStep] using hne
    · simp only [combineStep, ne_eq, hr, not_false_iff, if_pos]
      intro hc
      exact hr (List.append_eq_nil.1 (List.append_eq_nil.1 hc).1).1

theorem foldl_combineStep_nonempty (errs : List GoErr) (root : Str)
    (h : root ≠ [] ∨ ∃ s, some s ∈ errs ∧ s ≠ []) :
    errs.foldl combineStep root ≠ [] := by
  induction errs generalizing root with
  | nil =>
    rcases h with h | ⟨s, hs, _⟩
    · simpa using h
    · simp at hs
  | cons x rest ih =>
    rcases h with h | ⟨s, hs, hne⟩
    · exact ih _ (Or.inl (combineStep_nonempty root x (Or.inl h)))
    · rcases List.mem_cons.1 hs with hx | hx
      · subst hx
        exact ih _ (Or.inl (combineStep_nonempty root (some s) (Or.inr ⟨s, rfl, hne⟩)))
      · exact ih _ (Or.inr ⟨s, hx, hne⟩)

/-- If some error with a nonempty message is present, `combineErr` returns
an aggregate error (not nil). -/
theorem combineErr_isSome (errs : List GoErr)
    (h : ∃ s, some s ∈ errs ∧ s ≠ []) : ∃ res, combineErr errs = some res := by
  refine ⟨errs.foldl combineStep [], ?_⟩
  unfold combineErr
  rw [if_neg (foldl_combineStep_nonempty errs [] (Or.inr h))]

/-- If every error is nil, `combineErr` returns nil. -/
theorem combineErr_all_nil (errs : List GoErr) (h : ∀ e ∈ errs, e = none) :
    combineErr errs = none := by
  have : errs.foldl combineStep [] = [] := by
    induction errs with
    | nil => rfl
    | cons x rest ih =>
      have hx : x = none := h x (List.mem_cons_self x rest)
      subst hx
      exact ih (fun e he => h e (List.mem_cons_of_mem _ he))
  simp [combineErr, this]

/-! ## Configuration data model (marshaling.go)

```go
type Config struct {
    Version  string              `yaml:"version,omitempty"`
    Networks map[string]*Network `yaml:"networks,omitempty"`
    Services map[string]Service  `yaml:"services,omitempty"`
}
```
Go maps are modelled as association lists (key/value pairs); a `nil` map
is the empty list. -/

/-- `Network` from marshaling.go. -/
structure Network where
  Driver : Str
  External : Str
deriving DecidableEq

/-- `HealthCheck` from marshaling.go. -/
structure HealthCheck where
  Test : List Str := []
  Interval : Str := []
  Timeout : Str := []
  StartPeriod : Str := []
  Retries : Str := []
deriving DecidableEq

/-- `Service` from marshaling.go. -/
structure Service where
  Image : Str := []
  Entrypoint : Str := []
  Networks : List Str := []
  Hostname : Str := []
  Ports : List Str := []
  Volumes : List Str := []
  Command : List Str := []
  HealthCheck : HealthCheck := {}
  DependsOn : List Str := []
  Environment : List (Str × Str) := []
deriving DecidableEq

/-- `Config` from marshaling.go. -/
structure Config where
  Version : Str := []
  Networks : List (Str × Network) := []
  Services : List (Str × Service) := []
deriving DecidableEq

/-! ## Options and internal configuration (compose.go) -/

/-- `internalCFG` from compose.go (the logger and output-file plumbing are
outside the claims; the remaining fields are kept). Field defaults are the
Go zero values. -/
structure internalCFG where
  forcePull : Bool := false
  rmFirst : Bool := false
  compose : Config := {}
  projectName : Str := []
  connectTries : Int := 0
  keeparound : Bool := false
  preventStop : Bool := false
deriving DecidableEq

/-- The configuration `Start` begins from before applying options
(`projectName: "dccli", connectTries: 3`). -/
def startDefaultCFG : internalCFG :=
  { projectName := "dccli".data, connectTries := 3 }

/-- `OptionKeepAround` from compose.go. -/
def OptionKeepAround (b : Bool) (c : internalCFG) : internalCFG :=
  { c with keeparound := b }

/-- `OptionPreventStop` from compose.go. -/
def OptionPreventStop (b : Bool) (c : internalCFG) : internalCFG :=
  { c with preventStop := b }

/-- `OptionWithCompose` from compose.go. -/
def OptionWithCompose (o : Config) (c : internalCFG) : internalCFG :=
  { c with compose := o }

/-- `OptionStartRetries` from compose.go. -/
def OptionStartRetries (count : Int) (c : internalCFG) : internalCFG :=
  { c with connectTries := count }

/-! ## Cleanup (compose.go)

```go
func (c *Compose) Cleanup() error {
    if !c.cfg.preventStop {
        if err := composeStop(c.fileName, c.projectName); err != nil {
            return err
        }
    }
    if c.cfg.keeparound {
        return nil
    }
    return combineErr(composeKill(c.fileName, c.projectName),
        composeDown(c.fileName, c.projectName),
        dockerPrune())
}
```
The four step invocations are external commands; their outcomes (already
wrapped by `composeStop`/`composeKill`/`composeDown`/`dockerPrune`) are
passed in as `GoErr` parameters. `Cleanup` additionally returns the list
of steps it actually invoked, in order. -/

/-- The four teardown steps of `Cleanup`. -/
inductive CleanStep where
  | stop
  | kill
  | down
  | prune
deriving DecidableEq

/-- `Cleanup` from compose.go, over the outcomes of its four steps;
returns (steps invoked, returned error). -/
def Cleanup (cfg : internalCFG) (stopE killE downE pruneE : GoErr) :
    List CleanStep × GoErr :=
  if !cfg.preventStop then
    match stopE with
    | some e => ([CleanStep.stop], some e)
    | none =>
      if cfg.keeparound then ([CleanStep.stop], none)
      else ([CleanStep.stop, CleanStep.kill, CleanStep.down, CleanStep.prune],
            combineErr [killE, downE, pruneE])
  else
    if cfg.keeparound then ([], none)
    else ([CleanStep.kill, CleanStep.down, CleanStep.prune],
          combineErr [killE, downE, pruneE])

/-- C1 counterexample: with `preventStop = false`, a failing stop step
("permission denied") makes `Cleanup` return immediately: kill, down and
the volume prune are never invoked, and the returned error is exactly the
stop error, which does not contain the prune failure text "busy" — contrary
to the claim that the stop error is recorded, every remaining step still
runs, and the aggregate contains every failure's text. -/
theorem C1_cleanup_counterexample :
    Cleanup { preventStop := false, keeparound := false }
        (some ("permission denied".data)) none none (some ("busy".data))
      = ([CleanStep.stop], some ("permission denied".data))
    ∧ goContains ("permission denied".data) "busy".data = false := by
  decide

/-- C1 (amended): `Cleanup` short-circuits on the stop step: when
`preventStop` is false it invokes stop and, if stop errors, returns that
error immediately, invoking nothing else. When stop succeeds (or is
skipped) and `keepAround` is false, it invokes kill, down and the
dangling-volume prune regardless of each other's outcome, and the error
it returns is `combineErr` of their outcomes: nil if all three succeeded,
otherwise a single aggregate whose text contains the text of every
individual failure among kill, down and prune. -/
theorem C1_cleanup_amended (stopE killE downE pruneE : GoErr) :
    (∀ ka e, stopE = some e →
      Cleanup { preventStop := false, keeparound := ka } stopE killE downE pruneE
        = ([CleanStep.stop], some e))
  ∧ Cleanup { preventStop := false, keeparound := true } none killE downE pruneE
      = ([CleanStep.stop], none)
  ∧ Cleanup { preventStop := true, keeparound := true } stopE killE downE pruneE
      = ([], none)
  ∧ Cleanup { preventStop := false, keeparound := false } none killE downE pruneE
      = ([CleanStep.stop, CleanStep.kill, CleanStep.down, CleanStep.prune],
         combineErr [killE, downE, pruneE])
  ∧ Cleanup { preventStop := true, keeparound := false } stopE killE downE pruneE
      = ([CleanStep.kill, CleanStep.down, CleanStep.prune],
         combineErr [killE, downE, pruneE])
  ∧ (killE = none → downE = none → pruneE = none →
      combineErr [killE, downE, pruneE] = none)
  ∧ (∀ e, e ≠ [] → (killE = some e ∨ downE = some e ∨ pruneE = some e) →
      ∃ res, combineErr [killE, downE, pruneE] = some res
        ∧ goContains res e = true) := by
  refine ⟨?_, rfl, rfl, rfl, rfl, ?_, ?_⟩
  · intro ka e he
    subst he
    rfl
  · intro hk hd hp
    subst hk; subst hd; subst hp
    rfl
  · intro e hne hmem
    have hmem' : some e ∈ [killE, downE, pruneE] := by
      rcases hmem with h | h | h <;> simp [h]
    obtain ⟨res, hres⟩ := combineErr_isSome [killE, downE, pruneE] ⟨e, hmem', hne⟩
    exact ⟨res, hres, combineErr_contains _ res e hres hmem'⟩

/-- C1 witness: concrete instances of the amended Cleanup theorem. -/
theorem C1_cleanup_amended_witness :
    Cleanup { preventStop := false, keeparound := true }
        (some ['p']) none none none = ([CleanStep.stop], some ['p'])
    ∧ ∃ res, combineErr [some ['k'], none, some ['b']] = some res
        ∧ goContains res ['b'] = true :=
  ⟨(C1_cleanup_amended (some ['p']) none none none).1 true ['p'] rfl,
   (C1_cleanup_amended (some ['p']) (some ['k']) none (some ['b'])).2.2.2.2.2.2
     ['b'] (by decide) (Or.inr (Or.inr rfl))⟩

/-! ## Retry policies (retry file)

```go
func (s *SimpleRetryPolicy) AttemptAgain(err error) (bool, time.Duration) {
    out := s.n < s.NumRetries
    s.n++
    return out, s.Wait
}
```
State mutation is modelled by returning the updated policy value. The
`err` argument is received and ignored, exactly as in the source. -/

/-- `SimpleRetryPolicy` (fixed-interval variant). `Wait` is a duration in
nanoseconds. -/
structure SimpleRetryPolicy where
  NumRetries : Int
  Wait : Int
  n : Int := 0
deriving DecidableEq

/-- `NewSimpleRetryPolicy` from the retry file. -/
def NewSimpleRetryPolicy (retries : Int) (wait : Int) : SimpleRetryPolicy :=
  { NumRetries := retries, Wait := wait, n := 0 }

/-- `SimpleRetryPolicy.AttemptAgain`; the error argument is ignored. -/
def SimpleRetryPolicy.AttemptAgain (s : SimpleRetryPolicy) (_err : Str) :
    (Bool × Int) × SimpleRetryPolicy :=
  ((decide (s.n < s.NumRetries), s.Wait), { s with n := s.n + 1 })

/-- Feed a sequence of errors to a policy, one `AttemptAgain` call each,
collecting the returned (shouldRetry, wait) pairs. -/
def runPolicy : SimpleRetryPolicy → List Str → List (Bool × Int)
  | _, [] => []
  | s, e :: rest =>
    ((s.AttemptAgain e).1) :: runPolicy (s.AttemptAgain e).2 rest

theorem runPolicy_eq (NR W n : Int) (errs : List Str) :
    runPolicy { NumRetries := NR, Wait := W, n := n } errs
      = (List.range errs.length).map (fun i : Nat => (decide (n + (i : Int) < NR), W)) := by
  induction errs generalizing n with
  | nil => rfl
  | cons e rest ih =>
    show (decide (n < NR), W) :: runPolicy { NumRetries := NR, Wait := W, n := n + 1 } rest = _
    rw [ih (n + 1)]
    rw [List.length_cons, List.range_succ_eq_map, List.map_cons, List.map_map]
    congr 1
    · norm_num
    · apply List.map_congr_left
      intro i _
      have h : (n + 1) + (i : Int) = n + ((i : Int) + 1) := by ring
      simp [Function.comp, h]

/-- C4: a freshly constructed fixed-interval policy with `maxRetries = n`
returns `shouldRetry = true` from `AttemptAgain` on exactly the first `n`
calls and `false` on every call thereafter (call number `i`, 0-based,
returns `i < n`), with the wait always the constant configured at
construction and regardless of the errors passed in; in particular with
`maxRetries = 0` the very first call returns `false`. -/
theorem C4_simple_retry_policy (nr w : Int) (errs : List Str) :
    runPolicy (NewSimpleRetryPolicy nr w) errs
      = (List.range errs.length).map (fun i : Nat => (decide ((i : Int) < nr), w))
    ∧ ∀ e rest, (runPolicy (NewSimpleRetryPolicy 0 w) (e :: rest)).head?
        = some (false, w) := by
  constructor
  · have h := runPolicy_eq nr w 0 errs
    simpa using h
  · intro e rest
    rfl

/-! ## Exponential backoff (retry file)

```go
func getExponentialTime(min time.Duration, max time.Duration, attempts int) time.Duration {
    if min <= 0 { min = 100 * time.Millisecond }
    if max <= 0 { max = 10 * time.Second }
    minFloat := float64(min)
    napDuration := minFloat * math.Pow(2, float64(attempts-1))
    napDuration += rand.Float64()*minFloat - (minFloat / 2)
    if napDuration > float64(max) { return time.Duration(max) }
    return time.Duration(napDuration)
}
```
Durations are rationals counting nanoseconds (`100ms = 10^8`,
`10s = 10^10`); the float computation is modelled exactly over `ℚ`, and the
random draw `rand.Float64()` (uniform in `[0,1)`) is the parameter `r`.
The final float-to-integer `time.Duration(...)` truncation is not modelled:
the claims are about the computed wait value. -/

/-- The `min <= 0` default substitution (100ms). -/
def defaultedMin (min : ℚ) : ℚ := if min ≤ 0 then 100000000 else min

/-- The `max <= 0` default substitution (10s). -/
def defaultedMax (max : ℚ) : ℚ := if max ≤ 0 then 10000000000 else max

/-- `napDuration` just before the clamp: `min * 2^(attempts-1)` plus the
jitter `rand*min - min/2`. -/
def expNap (min1 : ℚ) (attempts : Int) (r : ℚ) : ℚ :=
  min1 * (2 : ℚ) ^ (attempts - 1) + (r * min1 - min1 / 2)

/-- `getExponentialTime` from the retry file. -/
def getExponentialTime (min max : ℚ) (attempts : Int) (r : ℚ) : ℚ :=
  if expNap (defaultedMin min) attempts r > defaultedMax max then defaultedMax max
  else expNap (defaultedMin min) attempts r

/-- `ExponentialBackoffRetryPolicy` from the retry file. -/
structure ExponentialBackoffRetryPolicy where
  NumRetries : Int
  Min : ℚ
  Max : ℚ
  n : Int := 0
deriving DecidableEq

/-- `ExponentialBackoffRetryPolicy.AttemptAgain`; `r` is the value drawn
from `rand.Float64()` during this call, the error argument is ignored. -/
def ExponentialBackoffRetryPolicy.AttemptAgain
    (e : ExponentialBackoffRetryPolicy) (_err : Str) (r : ℚ) :
    (Bool × ℚ) × ExponentialBackoffRetryPolicy :=
  ((decide (e.n < e.NumRetries), getExponentialTime e.Min e.Max e.n r),
   { e with n := e.n + 1 })

/-- The wait formula as the spec words it (for comparison with
`getExponentialTime`): `wait = min + min * 2^(attempt-1) + jitter`, with
the same default substitution and upper clamp. -/
def specExponentialWait (min max : ℚ) (attempt : Int) (r : ℚ) : ℚ :=
  if defaultedMin min + expNap (defaultedMin min) attempt r > defaultedMax max
  then defaultedMax max
  else defaultedMin min + expNap (defaultedMin min) attempt r

theorem defaultedMin_pos (min : ℚ) : 0 < defaultedMin min := by
  simp only [defaultedMin]
  by_cases h : min ≤ 0
  · rw [if_pos h]
    norm_num
  · rw [if_neg h]
    exact lt_of_not_le h

theorem defaultedMin_idem (min : ℚ) : defaultedMin (defaultedMin min) = defaultedMin min := by
  by_cases h : min ≤ 0
  · simp only [defaultedMin, if_pos h]
    norm_num
  · simp only [defaultedMin, if_neg h]

theorem defaultedMax_idem (max : ℚ) : defaultedMax (defaultedMax max) = defaultedMax max := by
  by_cases h : max ≤ 0
  · simp only [defaultedMax, if_pos h]
    norm_num
  · simp only [defaultedMax, if_neg h]

/-- C3 counterexample: at `min = 100ms, max = 10s, attempt = 1, r = 1/2`
the code returns `min * 2^0 + 0 = 100ms`, while the spec's formula
`min + min * 2^(attempt-1) + jitter` gives `200ms`: the claimed formula has
an extra additive `min` term that the code does not compute. -/
theorem C3_exponential_wait_counterexample :
    getExponentialTime 100000000 10000000000 1 (1/2) = 100000000
    ∧ specExponentialWait 100000000 10000000000 1 (1/2) = 200000000
    ∧ getExponentialTime 100000000 10000000000 1 (1/2)
        ≠ specExponentialWait 100000000 10000000000 1 (1/2) := by
  have h1 : getExponentialTime 100000000 10000000000 1 (1/2) = 100000000 := by
    unfold getExponentialTime expNap defaultedMin defaultedMax
    norm_num
  have h2 : specExponentialWait 100000000 10000000000 1 (1/2) = 200000000 := by
    unfold specExponentialWait expNap defaultedMin defaultedMax
    norm_num
  refine ⟨h1, h2, ?_⟩
  rw [h1, h2]
  norm_num

/-- C3 (amended): for every attempt number the policy's returned wait is
`getExponentialTime`, which equals `min * 2^(attempt-1) + jitter` (no
leading `min +` term) where `jitter = r*min - min/2` for the uniform draw
`r ∈ [0,1)` — so the jitter lies in `[-min/2, +min/2)` — the result is
clamped so it never exceeds `max`, and non-positive configured bounds are
substituted by the defaults `min = 100ms`, `max = 10s` before computing. -/
theorem C3_exponential_wait_amended (min max : ℚ) (a : Int) (r : ℚ)
    (hr0 : 0 ≤ r) (hr1 : r < 1) :
    getExponentialTime min max a r ≤ defaultedMax max
    ∧ (expNap (defaultedMin min) a r ≤ defaultedMax max →
        getExponentialTime min max a r
          = defaultedMin min * (2 : ℚ) ^ (a - 1)
            + (r * defaultedMin min - defaultedMin min / 2))
    ∧ getExponentialTime min max a r
        = getExponentialTime (defaultedMin min) (defaultedMax max) a r
    ∧ (-(defaultedMin min / 2) ≤ r * defaultedMin min - defaultedMin min / 2
        ∧ r * defaultedMin min - defaultedMin min / 2 < defaultedMin min / 2)
    ∧ (∀ NR n err, (ExponentialBackoffRetryPolicy.AttemptAgain
          { NumRetries := NR, Min := min, Max := max, n := n } err r).1.2
        = getExponentialTime min max n r) := by
  have hm := defaultedMin_pos min
  refine ⟨?_, ?_, ?_, ⟨?_, ?_⟩, ?_⟩
  · by_cases h : expNap (defaultedMin min) a r > defaultedMax max
    · simp only [getExponentialTime, if_pos h]
      exact le_refl _
    · simp only [getExponentialTime, if_neg h]
      exact not_lt.1 h
  · intro h
    simp only [getExponentialTime, if_neg (not_lt.2 h)]
    rfl
  · simp only [getExponentialTime, defaultedMin_idem, defaultedMax_idem]
  · have h0 : 0 ≤ r * defaultedMin min := mul_nonneg hr0 (le_of_lt hm)
    linarith
  · have h1 : r * defaultedMin min < 1 * defaultedMin min :=
      mul_lt_mul_of_pos_right hr1 hm
    linarith
  · intro NR n err
    rfl

/-- C3 witness: concrete instance of the amended exponential-wait theorem. -/
theorem C3_exponential_wait_amended_witness :
    getExponentialTime 100000000 10000000000 3 (1/2) ≤ defaultedMax 10000000000 :=
  (C3_exponential_wait_amended 100000000 10000000000 3 (1/2)
    (by norm_num) (by norm_num)).1

/-! ## Bounded exponential retry loop `connect` (retry file)

```go
func connect(retryCount int, baseRetryDelay time.Duration, connectFunc func() error) error {
    var err error
    for i := 0; i < retryCount; i++ {
        err = connectFunc()
        if err == nil { return nil }
        time.Sleep(baseRetryDelay)
        baseRetryDelay *= 2
    }
    return err
}
```
`connectGo` is the loop with its observable effects made explicit: the
closure may mutate enclosing state (type `σ`, used by `Start`'s closure),
successive invocations are numbered by `idx`, and the result records the
final state, the returned error, the number of closure invocations and the
trace of sleep durations (nanoseconds), in order. -/

/-- The `connect` loop body, fuel = remaining iterations, `lastErr` the
current value of the Go `err` variable. -/
def connectGo {σ : Type} (f : Nat → σ → σ × GoErr) :
    GoErr → Nat → Nat → Int → σ → σ × GoErr × Nat × List Int
  | lastErr, 0, _, _, s => (s, lastErr, 0, [])
  | _, fuel + 1, idx, delay, s =>
    match f idx s with
    | (s', none) => (s', none, 1, [])
    | (s', some e) =>
      match connectGo f (some e) fuel (idx + 1) (delay * 2) s' with
      | (s'', res, calls, sleeps) => (s'', res, calls + 1, delay :: sleeps)

/-- `connect` from the retry file: the loop over a stateless closure whose
invocation outcomes are `f 0, f 1, ...`; returns (returned error,
number of invocations, sleep trace). -/
def connect (retryCount : Int) (baseRetryDelay : Int) (f : Nat → GoErr) :
    GoErr × Nat × List Int :=
  (connectGo (fun k _ => ((), f k)) none retryCount.toNat 0 baseRetryDelay ()).2

theorem connectGo_calls_le {σ : Type} (f : Nat → σ → σ × GoErr)
    (fuel : Nat) (lastErr : GoErr) (idx : Nat) (delay : Int) (s : σ) :
    (connectGo f lastErr fuel idx delay s).2.2.1 ≤ fuel := by
  induction fuel generalizing lastErr idx delay s with
  | zero => exact Nat.le_refl 0
  | succ fuel ih =>
    simp only [connectGo]
    rcases hf : f idx s with ⟨s', r⟩
    cases r with
    | none => exact Nat.succ_le_succ (Nat.zero_le fuel)
    | some e => exact Nat.succ_le_succ (ih (some e) (idx + 1) (delay * 2) s')

/-- When the closure's outcome does not depend on the state (`g` gives the
outcome of invocation number `k`) and every invocation in range fails, the
loop runs out of fuel: it returns the last error, makes `fuel` calls, and
sleeps `delay, 2*delay, 4*delay, ...` — one sleep after every failing
invocation, the last included. -/
theorem connectGo_allFail {σ : Type} (f : Nat → σ → σ × GoErr) (g : Nat → GoErr)
    (hg : ∀ k s, (f k s).2 = g k) (fuel : Nat) (lastErr : GoErr) (idx : Nat)
    (delay : Int) (s : σ) (h : ∀ j, j < fuel → (g (idx + j)).isSome = true) :
    (connectGo f lastErr fuel idx delay s).2
      = (if fuel = 0 then lastErr else g (idx + fuel - 1), fuel,
         (List.range fuel).map (fun i : Nat => delay * 2 ^ i)) := by
  induction fuel generalizing lastErr idx delay s with
  | zero => rfl
  | succ fuel ih =>
    have h0 : (g idx).isSome = true := by simpa using h 0 (Nat.succ_pos fuel)
    rcases hf : f idx s with ⟨s', r⟩
    have hr : r = g idx := by
      have hk := hg idx s
      rw [hf] at hk
      exact hk
    rcases hsome : g idx with _ | e
    · rw [hsome] at h0
      simp at h0
    · rw [hsome] at hr
      subst hr
      have ih' := ih (some e) (idx + 1) (delay * 2) s'
        (fun j hj => by
          have hx := h (j + 1) (Nat.succ_lt_succ hj)
          have harith : idx + (j + 1) = idx + 1 + j := by omega
          rw [harith] at hx
          exact hx)
      have h1 := congrArg (fun p => p.1) ih'
      have h2 := congrArg (fun p => p.2.1) ih'
      have h3 := congrArg (fun p => p.2.2) ih'
      simp only at h1 h2 h3
      simp only [connectGo, hf, h1, h2, h3]
      simp only [Prod.mk.injEq]
      refine ⟨?_, trivial, ?_⟩
      · by_cases hz : fuel = 0
        · subst hz
          simp [hsome]
        · rw [if_neg hz, if_neg (Nat.succ_ne_zero fuel)]
          congr 1
          omega
      · rw [List.range_succ_eq_map, List.map_cons, List.map_map]
        refine congrArg₂ List.cons (by simp) ?_
        apply List.map_congr_left
        intro i _
        simp only [Function.comp_apply, pow_succ]
        ring

/-- When invocation `k` is the first to succeed (and `k` is within the
fuel), the loop stops right there: no error, `k + 1` calls, and `k`
doubling sleeps (one per failing invocation before the success). -/
theorem connectGo_firstSuccess {σ : Type} (f : Nat → σ → σ × GoErr) (g : Nat → GoErr)
    (hg : ∀ k s, (f k s).2 = g k) (fuel : Nat) (lastErr : GoErr) (idx : Nat)
    (delay : Int) (s : σ) (k : Nat) (hk : k < fuel)
    (hfail : ∀ j, j < k → (g (idx + j)).isSome = true) (hsucc : g (idx + k) = none) :
    (connectGo f lastErr fuel idx delay s).2
      = (none, k + 1, (List.range k).map (fun i : Nat => delay * 2 ^ i)) := by
  induction fuel generalizing lastErr idx delay s k with
  | zero => exact absurd hk (Nat.not_lt_zero k)
  | succ fuel ih =>
    rcases hf : f idx s with ⟨s', r⟩
    have hr : r = g idx := by
      have hk' := hg idx s
      rw [hf] at hk'
      exact hk'
    cases k with
    | zero =>
      have hnone : g idx = none := by simpa using hsucc
      rw [hnone] at hr
      subst hr
      simp only [connectGo, hf]
      rfl
    | succ k =>
      have h0 : (g idx).isSome = true := by simpa using hfail 0 (Nat.succ_pos k)
      rcases hsome : g idx with _ | e
      · rw [hsome] at h0
        simp at h0
      · rw [hsome] at hr
        subst hr
        have ih' := ih (some e) (idx + 1) (delay * 2) s' k (Nat.lt_of_succ_lt_succ hk)
          (fun j hj => by
            have hx := hfail (j + 1) (Nat.succ_lt_succ hj)
            have harith : idx + (j + 1) = idx + 1 + j := by omega
            rw [harith] at hx
            exact hx)
          (by
            have harith : idx + 1 + k = idx + (k + 1) := by omega
            rw [harith]
            exact hsucc)
        have h1 := congrArg (fun p => p.1) ih'
        have h2 := congrArg (fun p => p.2.1) ih'
        have h3 := congrArg (fun p => p.2.2) ih'
        simp only at h1 h2 h3
        simp only [connectGo, hf, h1, h2, h3]
        simp only [Prod.mk.injEq]
        refine ⟨trivial, trivial, ?_⟩
        rw [List.range_succ_eq_map, List.map_cons, List.map_map]
        refine congrArg₂ List.cons (by simp) ?_
        apply List.map_congr_left
        intro i _
        simp only [Function.comp_apply, pow_succ]
        ring

/-- C5: the bounded exponential retry loop `connect(maxAttempts, baseDelay,
op)` invokes `op` at most `maxAttempts` times; it returns nil as soon as an
invocation succeeds, having made exactly `k + 1` invocations when the
0-based invocation `k` is the first success; when all `maxAttempts`
invocations fail it returns the final invocation's error; and the sleep
trace is `baseDelay, 2*baseDelay, 4*baseDelay, ...` with one sleep after
every failing invocation — the last one included — the delay doubling after
each sleep. -/
theorem C5_connect_retry_loop (n : Nat) (d : Int) (f : Nat → GoErr) :
    (connect n d f).2.1 ≤ n
    ∧ (∀ k, k < n → (∀ j, j < k → (f j).isSome = true) → f k = none →
        connect n d f = (none, k + 1, (List.range k).map (fun i : Nat => d * 2 ^ i)))
    ∧ ((∀ j, j < n → (f j).isSome = true) → 0 < n →
        connect n d f = (f (n - 1), n, (List.range n).map (fun i : Nat => d * 2 ^ i))) := by
  have htn : ((n : Int)).toNat = n := Int.toNat_ofNat n
  refine ⟨?_, ?_, ?_⟩
  · unfold connect
    rw [htn]
    exact connectGo_calls_le _ n none 0 d ()
  · intro k hk hfail hsucc
    unfold connect
    rw [htn]
    have := connectGo_firstSuccess (fun k _ => ((), f k)) f (fun _ _ => rfl) n none 0 d () k
      (by simpa using hk) (fun j hj => by simpa using hfail j hj) (by simpa using hsucc)
    rw [this]
  · intro hfail hn
    unfold connect
    rw [htn]
    have := connectGo_allFail (fun k _ => ((), f k)) f (fun _ _ => rfl) n none 0 d ()
      (fun j hj => by simpa using hfail j hj)
    rw [this, if_neg (Nat.pos_iff_ne_zero.1 hn)]
    simp

/-- C5 witness: with 3 allowed attempts, base delay 5, and an operation
failing on invocations 0 and 1 then succeeding on invocation 2, `connect`
returns nil after 3 invocations with sleep trace `[5, 10]`. -/
theorem C5_connect_retry_loop_witness :
    connect 3 5 (fun k => if k < 2 then some ['x'] else none) = (none, 3, [5, 10]) := by
  have h := (C5_connect_retry_loop 3 5 (fun k => if k < 2 then some ['x'] else none)).2.1 2
    (by norm_num) (fun j hj => by interval_cases j <;> simp) (by simp)
  simpa using h

/-! ## Identity resolution (compose.go)

```go
func (c *Compose) updateContainers() error {
    for _, id := range c.ids {
        container, err := Inspect(id)
        if err != nil { return err }
        key := container.Name[1:]
        key = findKey(key, c.publicCfg.Services)
        if key == "" {
            return fmt.Errorf("could not map key: %s, to list of services", key)
        }
        c.containers[key] = container
    }
    return nil
}

func findKey(dockerName string, serviceNames map[string]Service) string {
    for k := range serviceNames {
        if strings.Contains(dockerName, k) { return k }
    }
    return ""
}
```
The inspection collaborator (`Inspect`, file not under src/) is abstracted
by supplying its per-identifier results as a list of `Except Str
ContainerInfo`, in the order of `c.ids`; the service map is its key set in
(arbitrary) iteration order. `container.Name[1:]` on an empty name is a Go
slice-bounds panic, modelled by the `panicked` outcome. Note the Go error
message interpolates `key` after it was overwritten by `findKey`'s result
`""`, so the message is literally `"could not map key: , to list of
services"`. -/

/-- `ContainerInfo` — modelled from the spec: the inspection collaborator's
result type (spec §3 "ContainerStatus": runtime identifier, runtime name,
running state, published ports); its defining file is not under src/, and
only the identifier and runtime name take part in the claims. -/
structure ContainerInfo where
  ID : Str := []
  Name : Str := []
deriving DecidableEq

/-- `Compose.containers`, Go `map[string]*ContainerInfo`, as an
association list. -/
abbrev CMap := List (Str × ContainerInfo)

/-- Go map assignment `m[k] = c`: replace the binding if present,
otherwise add it. -/
def insertC : CMap → Str → ContainerInfo → CMap
  | [], k, c => [(k, c)]
  | (k', c') :: t, k, c =>
    if k' = k then (k, c) :: t else (k', c') :: insertC t k c

/-- Go map lookup `m[k]`. -/
def lookupC : CMap → Str → Option ContainerInfo
  | [], _ => none
  | (k', c') :: t, k => if k' = k then some c' else lookupC t k

/-- `findKey` from compose.go: first key (in iteration order) that is a
substring of `dockerName`, else `""`. -/
def findKey (dockerName : Str) (serviceNames : List Str) : Str :=
  match serviceNames with
  | [] => []
  | k :: rest => if goContains dockerName k then k else findKey dockerName rest

/-- Outcome of `updateContainers`: normal return (`ok` with the updated
map, or `errOut` with the map as mutated so far and the error), or a
runtime panic from the `Name[1:]` slice. -/
inductive UCOut where
  | ok (m : CMap)
  | errOut (m : CMap) (e : Str)
  | panicked
deriving DecidableEq

/-- `updateContainers` from compose.go over the supplied inspection
results. -/
def updateContainers (serviceKeys : List Str) : CMap → List (Except Str ContainerInfo) → UCOut
  | m, [] => UCOut.ok m
  | m, info :: rest =>
    match info with
    | Except.error e => UCOut.errOut m e
    | Except.ok c =>
      match c.Name with
      | [] => UCOut.panicked
      | _ :: stripped =>
        match findKey stripped serviceKeys with
        | [] => UCOut.errOut m ("could not map key: , to list of services".data)
        | k => updateContainers serviceKeys (insertC m k c) rest

/-- Outcome of `GetContainer`. -/
inductive GetOut where
  | ok (c : ContainerInfo)
  | errOut (e : Str)
  | panicked
deriving DecidableEq

/-- `GetContainer` from compose.go: always refresh every tracked container
(`updateContainers`), then look up the logical key. -/
def GetContainer (serviceKeys : List Str) (m : CMap)
    (infos : List (Except Str ContainerInfo)) (key : Str) : GetOut :=
  match updateContainers serviceKeys m infos with
  | UCOut.panicked => GetOut.panicked
  | UCOut.errOut _ e => GetOut.errOut e
  | UCOut.ok m' =>
    match lookupC m' key with
    | none => GetOut.errOut ("no container ".data ++ key ++ " found".data)
    | some c => GetOut.ok c

/-- One convergence attempt of `Start` after the `up` invocation: an `up`
failure or an identity-mapping failure makes the attempt return that
error; `none` models the attempt panicking (propagated, not retried). -/
def startAttempt (serviceKeys : List Str)
    (upResult : Except Str (List (Except Str ContainerInfo))) (m : CMap) :
    Option (CMap × GoErr) :=
  match upResult with
  | Except.error e => some (m, some e)
  | Except.ok infos =>
    match updateContainers serviceKeys m infos with
    | UCOut.ok m' => some (m', none)
    | UCOut.errOut m' e => some (m', some e)
    | UCOut.panicked => none

theorem findKey_of_first_match (name : Str) (pre : List Str) (k : Str) (post : List Str)
    (hpre : ∀ k', k' ∈ pre → goContains name k' = false)
    (hk : goContains name k = true) :
    findKey name (pre ++ k :: post) = k := by
  induction pre with
  | nil => simp [findKey, hk]
  | cons p ps ih =>
    have hp : goContains name p = false := hpre p (List.mem_cons_self p ps)
    simp only [List.cons_append, findKey, hp]
    exact ih (fun k' hk' => hpre k' (List.mem_cons_of_mem p hk'))

theorem findKey_of_no_match (name : Str) (keys : List Str)
    (h : ∀ k, k ∈ keys → goContains name k = false) :
    findKey name keys = [] := by
  induction keys with
  | nil => rfl
  | cons p ps ih =>
    have hp : goContains name p = false := h p (List.mem_cons_self p ps)
    simp only [findKey, hp]
    exact ih (fun k hk => h k (List.mem_cons_of_mem p hk))

/-- C6 counterexample: with service-key set `{""}` (the empty key) and a
container named `"/proj_svc_1"`, the empty key IS a substring of the
stripped name `"proj_svc_1"` — so at least one key matches — yet
`updateContainers` returns the "could not map key" error instead of
mapping the container, because `findKey`'s result `""` is
indistinguishable from "no match". -/
theorem C6_identity_resolution_counterexample :
    goContains ("proj_svc_1".data) [] = true
    ∧ updateContainers [[]] []
        [Except.ok { Name := "/proj_svc_1".data }]
        = UCOut.errOut [] ("could not map key: , to list of services".data) := by
  constructor
  · decide
  · rfl

/-- C6 (amended): for every discovered container, identity resolution
strips the leading character from the runtime name and scans the
service-key set for a key that is a substring of the stripped name. If the
first matching key in the (unordered) scan is non-empty, the container is
mapped under it and the pass continues; if no key matches — or the first
matching key is the empty string — resolution returns the
"could not map key" error, the partially-updated mapping pass stops, and
the enclosing Start attempt fails with that error. -/
theorem C6_identity_resolution_amended (serviceKeys : List Str) (m : CMap)
    (c : ContainerInfo) (ch : Char) (stripped : Str)
    (rest : List (Except Str ContainerInfo)) (hname : c.Name = ch :: stripped) :
    (∀ pre k post, serviceKeys = pre ++ k :: post →
      (∀ k', k' ∈ pre → goContains stripped k' = false) →
      goContains stripped k = true → k ≠ [] →
      updateContainers serviceKeys m (Except.ok c :: rest)
        = updateContainers serviceKeys (insertC m k c) rest)
    ∧ ((∀ k, k ∈ serviceKeys → goContains stripped k = false) →
      updateContainers serviceKeys m (Except.ok c :: rest)
        = UCOut.errOut m ("could not map key: , to list of services".data))
    ∧ (∀ pre post, serviceKeys = pre ++ [] :: post →
      (∀ k', k' ∈ pre → goContains stripped k' = false) →
      updateContainers serviceKeys m (Except.ok c :: rest)
        = UCOut.errOut m ("could not map key: , to list of services".data))
    ∧ (∀ infos m' e, updateContainers serviceKeys m infos = UCOut.errOut m' e →
      startAttempt serviceKeys (Except.ok infos) m = some (m', some e)) := by
  refine ⟨?_, ?_, ?_, ?_⟩
  · intro pre k post hkeys hpre hk hne
    subst hkeys
    have hfind : findKey stripped (pre ++ k :: post) = k :=
      findKey_of_first_match stripped pre k post hpre hk
    cases k with
    | nil => exact absurd rfl hne
    | cons a as => simp only [updateContainers, hname, hfind]
  · intro hnone
    have hfind : findKey stripped serviceKeys = [] :=
      findKey_of_no_match stripped serviceKeys hnone
    simp only [updateContainers, hname, hfind]
  · intro pre post hkeys hpre
    subst hkeys
    have hfind : findKey stripped (pre ++ [] :: post) = [] :=
      findKey_of_first_match stripped pre [] post hpre (by
        cases stripped <;> simp [goContains, leadMatch])
    simp only [updateContainers, hname, hfind]
  · intro infos m' e hupd
    simp only [startAttempt, hupd]

/-- C6 witness: concrete instances of the amended identity-resolution
theorem. -/
theorem C6_identity_resolution_amended_witness :
    updateContainers ["svc".data] [] [Except.ok { Name := "/proj_svc_1".data }]
      = updateContainers ["svc".data] (insertC [] ("svc".data) { Name := "/proj_svc_1".data }) []
    ∧ updateContainers ["zzz".data] [] [Except.ok { Name := "/proj_svc_1".data }]
      = UCOut.errOut [] ("could not map key: , to list of services".data) :=
  ⟨(C6_identity_resolution_amended ["svc".data] [] { Name := "/proj_svc_1".data }
      '/' "proj_svc_1".data [] rfl).1 [] ("svc".data) [] rfl
      (fun k' hk' => absurd hk' (List.not_mem_nil k')) (by decide) (by decide),
   (C6_identity_resolution_amended ["zzz".data] [] { Name := "/proj_svc_1".data }
      '/' "proj_svc_1".data [] rfl).2.1
      (fun k hk => by
        rcases List.mem_singleton.1 hk with rfl
        decide)⟩

/-- C10: refreshing container status indexes the runtime name as
`Name[1:]` with no length check: whenever every successfully inspected
container has a non-empty name, `updateContainers` never panics; but a
single empty runtime name makes it — and `GetContainer`, which refreshes
through it — panic rather than return an error. -/
theorem C10_name_slice_panic (serviceKeys : List Str) :
    (∀ m infos, (∀ c, Except.ok c ∈ infos → c.Name ≠ []) →
      updateContainers serviceKeys m infos ≠ UCOut.panicked)
    ∧ (∀ m rest, updateContainers serviceKeys m
        (Except.ok { Name := [] } :: rest) = UCOut.panicked)
    ∧ (∀ m rest key, GetContainer serviceKeys m
        (Except.ok { Name := [] } :: rest) key = GetOut.panicked) := by
  refine ⟨?_, fun m rest => rfl, fun m rest key => rfl⟩
  intro m infos hnames
  induction infos generalizing m with
  | nil => simp [updateContainers]
  | cons info rest ih =>
    cases info with
    | error e => simp [updateContainers]
    | ok c =>
      have hc : c.Name ≠ [] := hnames c (List.mem_cons_self _ rest)
      rcases hn : c.Name with _ | ⟨a, stripped⟩
      · exact absurd hn hc
      · simp only [updateContainers, hn]
        rcases hfind : findKey stripped serviceKeys with _ | ⟨b, bs⟩
        · simp
        · exact ih (insertC m (b :: bs) c)
            (fun c' hc' => hnames c' (List.mem_cons_of_mem _ hc'))

/-- C10 witness: concrete instances — non-empty names never panic; the
empty name panics in both `updateContainers` and `GetContainer`. -/
theorem C10_name_slice_panic_witness :
    updateContainers ["a".data] [] [Except.ok { Name := "/a".data }] ≠ UCOut.panicked
    ∧ GetContainer ["a".data] [] [Except.ok { Name := [] }] ("a".data) = GetOut.panicked :=
  ⟨(C10_name_slice_panic ["a".data]).1 [] [Except.ok { Name := "/a".data }]
      (fun c hc => by
        rcases List.mem_singleton.1 hc with h
        cases h
        decide),
   (C10_name_slice_panic ["a".data]).2.2 [] [] ("a".data)⟩

/-! ## Start's convergence loop (compose.go)

```go
err = connect(cfg.connectTries, time.Second*2, func() error {
    out, err := composeRun(cfg.outFile, cfg.projectName, "--verbose", "up", "-d")
    if err != nil { return err }
    ...identity resolution, c.updateContainers()...
    return nil
})
if err != nil {
    return nil, fmt.Errorf("compose: error starting containers: %v", err)
}
```
The closure passed to `connect` mutates the `Compose` value; `startRun`
runs `connect` with the container map as the threaded state and an
abstract attempt function (invocation number → map → updated map ×
error), wrapping a final failure exactly as `Start` does. -/

/-- `time.Second * 2` in nanoseconds. -/
def twoSecondsNs : Int := 2000000000

/-- The wrap `fmt.Errorf("compose: error starting containers: %v", err)`
prepends this context. -/
def startErrWrap : Str := "compose: error starting containers: ".data

/-- The container map `Start` creates before connecting:
`make(map[string]*ContainerInfo)`. -/
def startInitContainers : CMap := []

/-- The convergence phase of `Start`: run the bounded retry loop over the
attempt closure, then wrap any final error. Returns (result, number of
attempt invocations, sleep trace). -/
def startRun (tries : Int) (init : CMap) (attempt : Nat → CMap → CMap × GoErr) :
    Except Str CMap × Nat × List Int :=
  match connectGo attempt none tries.toNat 0 twoSecondsNs init with
  | (s, none, calls, sleeps) => (Except.ok s, calls, sleeps)
  | (_, some e, calls, sleeps) => (Except.error (startErrWrap ++ e), calls, sleeps)

/-- C2 counterexample: with `startRetryCount = 3` and every attempt
failing, the waits between attempts are 2s, 4s, 8s — the delay doubles —
not the claimed fixed 2-second spacing. -/
theorem C2_start_retry_counterexample :
    (startRun 3 [] (fun _ s => (s, some ['b']))).2.2
      = [2000000000, 4000000000, 8000000000]
    ∧ (startRun 3 [] (fun _ s => (s, some ['b']))).2.2
      ≠ [2000000000, 2000000000, 2000000000] := by
  constructor
  · rfl
  · decide

/-- C2 (amended): `Start`'s convergence loop invokes the `up` attempt at
most `startRetryCount` times, with a sleep after every failing attempt
(the last included) that starts at 2 seconds and doubles each time — not a
fixed 2-second spacing. An attempt whose `up` call or identity mapping
fails triggers a retry; the first successful attempt ends the loop; and
when all `startRetryCount` attempts fail, `Start` returns the last
attempt's error wrapped with "compose: error starting containers". `g`
gives each attempt's outcome (the attempt closure's returned error). -/
theorem C2_start_retry_amended (tries : Nat) (attempt : Nat → CMap → CMap × GoErr)
    (g : Nat → GoErr) (hg : ∀ k s, (attempt k s).2 = g k) (init : CMap) :
    (startRun tries init attempt).2.1 ≤ tries
    ∧ (∀ k, k < tries → (∀ j, j < k → (g j).isSome = true) → g k = none →
        ∃ m, startRun tries init attempt
          = (Except.ok m, k + 1,
             (List.range k).map (fun i : Nat => twoSecondsNs * 2 ^ i)))
    ∧ ((∀ j, j < tries → (g j).isSome = true) → 0 < tries →
        ∀ e, g (tries - 1) = some e →
        startRun tries init attempt
          = (Except.error (startErrWrap ++ e), tries,
             (List.range tries).map (fun i : Nat => twoSecondsNs * 2 ^ i))) := by
  have htn : ((tries : Int)).toNat = tries := Int.toNat_ofNat tries
  refine ⟨?_, ?_, ?_⟩
  · have hle := connectGo_calls_le attempt tries none 0 twoSecondsNs init
    unfold startRun
    rw [htn]
    rcases hc : connectGo attempt none tries 0 twoSecondsNs init with ⟨s, r, calls, sleeps⟩
    rw [hc] at hle
    cases r <;> exact hle
  · intro k hk hfail hsucc
    have hspec := connectGo_firstSuccess attempt g hg tries none 0 twoSecondsNs init k hk
      (fun j hj => by simpa using hfail j hj) (by simpa using hsucc)
    unfold startRun
    rw [htn]
    rcases hc : connectGo attempt none tries 0 twoSecondsNs init with ⟨s, r, calls, sleeps⟩
    rw [hc] at hspec
    simp only [Prod.mk.injEq] at hspec
    obtain ⟨h1, h2, h3⟩ := hspec
    subst h1
    subst h2
    subst h3
    exact ⟨s, rfl⟩
  · intro hfail hn e he
    have hspec := connectGo_allFail attempt g hg tries none 0 twoSecondsNs init
      (fun j hj => by simpa using hfail j hj)
    rw [if_neg (Nat.pos_iff_ne_zero.1 hn)] at hspec
    unfold startRun
    rw [htn]
    rcases hc : connectGo attempt none tries 0 twoSecondsNs init with ⟨s, r, calls, sleeps⟩
    rw [hc] at hspec
    simp only [Prod.mk.injEq] at hspec
    obtain ⟨h1, h2, h3⟩ := hspec
    rw [Nat.zero_add] at h1
    rw [h1, he]
    subst h2
    subst h3
    rfl

/-- C2 witness: the two scenarios — attempts 0 and 1 fail, attempt 2
succeeds: with `startRetryCount = 3` Start succeeds after 3 invocations;
with `startRetryCount = 2` it returns the attempt-2 error wrapped with the
starting-containers context. -/
theorem C2_start_retry_amended_witness :
    (∃ m, startRun 3 startInitContainers
        (fun k s => (s, if k < 2 then some ['e'] else none))
      = (Except.ok m, 2 + 1,
         (List.range 2).map (fun i : Nat => twoSecondsNs * 2 ^ i)))
    ∧ startRun 2 startInitContainers
        (fun k s => (s, if k < 2 then some ['e'] else none))
      = (Except.error (startErrWrap ++ ['e']), 2,
         (List.range 2).map (fun i : Nat => twoSecondsNs * 2 ^ i)) := by
  constructor
  · exact (C2_start_retry_amended 3 _ (fun k => if k < 2 then some ['e'] else none)
      (fun k s => rfl) startInitContainers).2.1 2 (by norm_num)
      (fun j hj => by interval_cases j <;> simp) (by simp)
  · exact (C2_start_retry_amended 2 _ (fun k => if k < 2 then some ['e'] else none)
      (fun k s => rfl) startInitContainers).2.2
      (fun j hj => by interval_cases j <;> simp) (by norm_num) ['e'] (by norm_num)

/-- C9: a retry count of zero or less makes the `connect` loop body never
execute: `connect` returns nil with zero invocations and no sleeps, and
`Start`'s convergence phase succeeds with the container map left as the
empty map `Start` created, the `up` attempt never invoked.
`OptionStartRetries 0` sets `connectTries` to 0 over the default 3. -/
theorem C9_zero_retries (tries : Int) (h : tries ≤ 0) (d : Int) (f : Nat → GoErr)
    (init : CMap) (attempt : Nat → CMap → CMap × GoErr) :
    connect tries d f = (none, 0, [])
    ∧ startRun tries init attempt = (Except.ok init, 0, [])
    ∧ startRun (OptionStartRetries 0 startDefaultCFG).connectTries
        startInitContainers attempt = (Except.ok startInitContainers, 0, [])
    ∧ (OptionStartRetries 0 startDefaultCFG).connectTries = 0
    ∧ startDefaultCFG.connectTries = 3 := by
  have htn : tries.toNat = 0 := Int.toNat_of_nonpos h
  refine ⟨?_, ?_, rfl, rfl, rfl⟩
  · unfold connect
    rw [htn]
    rfl
  · unfold startRun
    rw [htn]
    rfl

/-- C9 witness: concrete zero-retry instances. -/
theorem C9_zero_retries_witness :
    connect 0 5 (fun _ => some ['x']) = (none, 0, [])
    ∧ startRun 0 [] (fun _ s => (s, some ['x'])) = (Except.ok [], 0, []) := by
  have h := C9_zero_retries 0 (by norm_num) 5 (fun _ => some ['x']) []
    (fun _ s => (s, some ['x']))
  exact ⟨h.1, h.2.1⟩

/-! ## InferDockerHost (utils.go)

```go
var dockerHostRegexp = regexp.MustCompile("://([^:]+):")

func InferDockerHost() (string, error) {
    envHost := os.Getenv("DOCKER_HOST")
    if len(envHost) == 0 { return "127.0.0.1", nil }
    matches := dockerHostRegexp.FindAllStringSubmatch(envHost, -1)
    if len(matches) != 1 || len(matches[0]) != 2 {
        return "", fmt.Errorf("compose: cannot parse DOCKER_HOST '%v'", envHost)
    }
    return matches[0][1], nil
}
```
The environment read is passed in as the argument. The regex
`://([^:]+):` is embedded directly: a match is `://`, then a maximal
nonempty run of non-colon characters (the capture), then `:`; `FindAll`
scans left to right, resuming after each match. In Go a submatch slice for
this pattern always has length 2 (whole match + one group), so the
`len(matches[0]) != 2` disjunct can never fire and is not modelled. -/

/-- Split at the first `':'`: returns (characters before it, characters
after it), or `none` when no colon occurs. -/
def scanHost : Str → Option (Str × Str)
  | [] => none
  | c :: rest =>
    if c = ':' then some ([], rest)
    else
      match scanHost rest with
      | none => none
      | some (host, tail) => some (c :: host, tail)

/-- Match `://([^:]+):` at the start of the string; on success return the
capture and the remainder after the match. -/
def matchHostAt : Str → Option (Str × Str)
  | c1 :: c2 :: c3 :: rest =>
    if c1 = ':' ∧ c2 = '/' ∧ c3 = '/' then
      match scanHost rest with
      | some (h :: hs, tail) => some (h :: hs, tail)
      | _ => none
    else none
  | _ => none

/-- One `FindAll` scan: on a match resume after it, otherwise advance one
character. Fuel `s.length` always suffices (`findAllHostsAux_fuel`). -/
def findAllHostsAux : Nat → Str → List Str
  | 0, _ => []
  | _ + 1, [] => []
  | fuel + 1, c :: rest =>
    match matchHostAt (c :: rest) with
    | some (host, tail) => host :: findAllHostsAux fuel tail
    | none => findAllHostsAux fuel rest

/-- `FindAllStringSubmatch` captures of `://([^:]+):` over the whole
string. -/
def findAllHosts (s : Str) : List Str := findAllHostsAux s.length s

theorem scanHost_length (s : Str) (h t : Str) (hs : scanHost s = some (h, t)) :
    h.length + 1 + t.length = s.length := by
  induction s generalizing h t with
  | nil => cases hs
  | cons c rest ih =>
    by_cases hc : c = ':'
    · simp only [scanHost, if_pos hc] at hs
      cases hs
      simp only [List.length_nil, List.length_cons]
      omega
    · simp only [scanHost, if_neg hc] at hs
      rcases hrec : scanHost rest with _ | ⟨host, tail⟩
      · rw [hrec] at hs
        cases hs
      · rw [hrec] at hs
        injection hs with hp
        have h1 : c :: host = h := congrArg Prod.fst hp
        have h2 : tail = t := congrArg Prod.snd hp
        subst h1
        subst h2
        have hlen := ih host tail hrec
        simp only [List.length_cons]
        omega

theorem matchHostAt_length (s : Str) (h t : Str) (hm : matchHostAt s = some (h, t)) :
    t.length < s.length := by
  cases s with
  | nil => cases hm
  | cons c1 s1 =>
    cases s1 with
    | nil => cases hm
    | cons c2 s2 =>
      cases s2 with
      | nil => cases hm
      | cons c3 rest =>
        by_cases hpat : c1 = ':' ∧ c2 = '/' ∧ c3 = '/'
        · simp only [matchHostAt, if_pos hpat] at hm
          rcases hrec : scanHost rest with _ | ⟨host, tail⟩
          · rw [hrec] at hm
            cases hm
          · rw [hrec] at hm
            cases host with
            | nil => cases hm
            | cons hh hs =>
              injection hm with hp
              have h1 : tail = t := congrArg Prod.snd hp
              subst h1
              have hlen := scanHost_length rest (hh :: hs) tail hrec
              simp only [List.length_cons]
              omega
        · simp only [matchHostAt, if_neg hpat] at hm
          cases hm

theorem findAllHostsAux_fuel (n : Nat) : ∀ (m : Nat) (s : Str),
    s.length ≤ n → s.length ≤ m → findAllHostsAux n s = findAllHostsAux m s := by
  induction n with
  | zero =>
    intro m s hn _
    have hs : s = [] := List.length_eq_zero.1 (Nat.le_zero.1 hn)
    subst hs
    cases m <;> rfl
  | succ n ih =>
    intro m s hn hm
    cases s with
    | nil => cases m <;> rfl
    | cons c rest =>
      cases m with
      | zero => simp at hm
      | succ m =>
        rcases hmt : matchHostAt (c :: rest) with _ | ⟨host, tail⟩
        · simp only [findAllHostsAux, hmt]
          have h1 : rest.length ≤ n := by
            simp only [List.length_cons] at hn
            omega
          have h2 : rest.length ≤ m := by
            simp only [List.length_cons] at hm
            omega
          exact ih m rest h1 h2
        · simp only [findAllHostsAux, hmt]
          have hlen := matchHostAt_length (c :: rest) host tail hmt
          have h1 : tail.length ≤ n := by
            simp only [List.length_cons] at hlen hn
            omega
          have h2 : tail.length ≤ m := by
            simp only [List.length_cons] at hlen hm
            omega
          exact congrArg (List.cons host) (ih m tail h1 h2)

/-- `InferDockerHost` from utils.go, over the value of the `DOCKER_HOST`
environment variable (`[]` = unset/empty). -/
def inferDockerHost (envHost : Str) : Except Str Str :=
  if envHost.length = 0 then Except.ok ("127.0.0.1".data)
  else
    match findAllHosts envHost with
    | [h] => Except.ok h
    | _ => Except.error
        ("compose: cannot parse DOCKER_HOST '".data ++ envHost ++ "'".data)

/-- C7: `InferDockerHost` returns `127.0.0.1` with no error when
`DOCKER_HOST` is empty or unset; when set, the host is extracted by the
pattern `://<host>:` (so `tcp://192.168.99.100:2376` yields
`192.168.99.100`); and any value the pattern does not match exactly once
yields a parse error and no host. -/
theorem C7_infer_docker_host :
    inferDockerHost [] = Except.ok ("127.0.0.1".data)
    ∧ inferDockerHost ("tcp://192.168.99.100:2376".data)
        = Except.ok ("192.168.99.100".data)
    ∧ (∀ env h, findAllHosts env = [h] → env ≠ [] →
        inferDockerHost env = Except.ok h)
    ∧ (∀ env, (findAllHosts env).length ≠ 1 → env ≠ [] →
        inferDockerHost env = Except.error
          ("compose: cannot parse DOCKER_HOST '".data ++ env ++ "'".data)) := by
  refine ⟨rfl, by rfl, ?_, ?_⟩
  · intro env h hfind henv
    unfold inferDockerHost
    rw [if_neg (fun hc => henv (List.length_eq_zero.1 hc)), hfind]
  · intro env hlen henv
    unfold inferDockerHost
    rw [if_neg (fun hc => henv (List.length_eq_zero.1 hc))]
    rcases hfind : findAllHosts env with _ | ⟨h1, t⟩
    · rfl
    · cases t with
      | nil =>
        exact absurd (by rw [hfind]; rfl : (findAllHosts env).length = 1) hlen
      | cons h2 t2 => rfl

/-- C7 witness: a value with no recognizable host segment is a parse
error; a well-formed URL maps to its host. -/
theorem C7_infer_docker_host_witness :
    inferDockerHost ("foo".data) = Except.error
        ("compose: cannot parse DOCKER_HOST '".data ++ "foo".data ++ "'".data)
    ∧ inferDockerHost ("a://b:1".data) = Except.ok ("b".data) :=
  ⟨C7_infer_docker_host.2.2.2 ("foo".data) (by decide) (by decide),
   C7_infer_docker_host.2.2.1 ("a://b:1".data) "b".data (by decide) (by decide)⟩

/-! ## Configuration preparation in Start (compose.go)

```go
bs, err := yaml.Marshal(&cfg.compose)
...
var cmpCFG Config
yaml.Unmarshal(bs, &cmpCFG)
cmpCFG.Networks = nil
for k, svc := range cmpCFG.Services {
    updatedSVC := svc
    updatedSVC.Networks = nil
    cmpCFG.Services[k] = updatedSVC
}
bsMod, err := yaml.Marshal(&cmpCFG)
```
The marshal/unmarshal round trip produces a fresh `Config` value sharing
no mutable state with the caller's; on the level of pure values the copy
is the value itself, and the two mutations act on the copy only. -/

/-- The YAML round-trip deep copy, as a value copy. -/
def yamlDeepCopy (c : Config) : Config := c

/-- `cmpCFG.Networks = nil`. -/
def stripTopNetworks (c : Config) : Config := { c with Networks := [] }

/-- The per-service loop setting every `svc.Networks = nil`. -/
def stripServiceNetworks (c : Config) : Config :=
  { c with Services := c.Services.map (fun kv => (kv.1, { kv.2 with Networks := [] })) }

/-- The configuration-preparation phase of `Start`: deep-copy the caller's
configuration and strip all network declarations on the copy. Returns
(the caller's value as `Start` leaves it, the effective configuration
that is marshalled to the compose file). -/
def startPrepareConfig (orig : Config) : Config × Config :=
  (orig, stripServiceNetworks (stripTopNetworks (yamlDeepCopy orig)))

/-- C8: `Start` operates on a deep copy, so the caller's `Config` —
including its `Networks` map and each service's `Networks` list — is
unchanged, while the effective configuration it persists has no network
declarations: the top-level `Networks` field and every service's
`Networks` field are stripped (service names and the version survive). -/
theorem C8_config_copy_strip (c : Config) :
    (startPrepareConfig c).1 = c
    ∧ (startPrepareConfig c).2.Networks = []
    ∧ (∀ kv, kv ∈ (startPrepareConfig c).2.Services → kv.2.Networks = [])
    ∧ (startPrepareConfig c).2.Services.map Prod.fst = c.Services.map Prod.fst
    ∧ (startPrepareConfig c).2.Version = c.Version := by
  refine ⟨rfl, rfl, ?_, ?_, rfl⟩
  · intro kv hkv
    simp only [startPrepareConfig, stripServiceNetworks, stripTopNetworks,
      yamlDeepCopy, List.mem_map] at hkv
    obtain ⟨a, _, rfl⟩ := hkv
    rfl
  · simp only [startPrepareConfig, stripServiceNetworks, stripTopNetworks,
      yamlDeepCopy, List.map_map]
    rfl

/-- A sample configuration carrying both a project-level network and a
service-level network reference. -/
def sampleConfig : Config :=
  { Version := ['3'],
    Networks := [("front".data, { Driver := "bridge".data, External := [] })],
    Services := [("svc".data, { Image := "img".data, Networks := ["front".data] })] }

/-- C8 witness: the sample configuration is returned to the caller intact
while its persisted counterpart has both network declarations stripped. -/
theorem C8_config_copy_strip_witness :
    (startPrepareConfig sampleConfig).1 = sampleConfig
    ∧ (startPrepareConfig sampleConfig).2.Networks = []
    ∧ (("svc".data, ({ Image := "img".data } : Service)).2).Networks = [] :=
  ⟨(C8_config_copy_strip sampleConfig).1,
   (C8_config_copy_strip sampleConfig).2.1,
   (C8_config_copy_strip sampleConfig).2.2.1
     ("svc".data, { Image := "img".data }) (by decide)⟩

end Dccli
